import Mathlib

/-!
Shallow embedding of the janetic genetic-algorithm library.

Python `Chromosome` objects have identity: the population list holds
references, `x in list` uses the default `__eq__` (identity), and
mutation edits gene lists in place.  We model this with an explicit
heap: a chromosome is a heap cell (genes plus fitness), a reference is
the cell index (`ChromId`), and a `Population` is the heap together
with the list of references held in `self.chromosomes`.

Randomness is passed in explicitly: every random draw the source makes
(`random.random()`, `random.uniform`, `random.choice`, `random.choices`,
`random.randint`, `numpy.random.choice`) becomes an explicit argument,
so every function is a pure function of its draws.
-/

namespace Janetic

/-- One chromosome object: a gene list (rationals standing for the
Python ints/floats) and a scalar fitness, as in `chromosome.py`. -/
structure ChromObj where
  genes : List ℚ
  fitness : ℚ
  deriving DecidableEq, Repr

/-- The default object used for out-of-range heap reads (never reached
on the traces we evaluate). -/
def d0 : ChromObj := ⟨[], 0⟩

/-- The object store: cell `i` is the chromosome object with identity `i`. -/
abbrev Heap := List ChromObj

/-- A reference to a chromosome object (Python object identity). -/
abbrev ChromId := Nat

/-- Dereference a chromosome id. -/
def objAt (heap : Heap) (i : ChromId) : ChromObj := heap.getD i d0

/-- The observable state of a `Population`: the heap and the
`self.chromosomes` reference list. -/
structure PopState where
  heap : Heap
  chromosomes : List ChromId
  deriving DecidableEq, Repr

/-! ### fitness.py -/

/-- `itertools.compress(xs, mask)`: keep `xs[i]` where `mask[i]` is
truthy (nonzero); the zip truncates to the shorter list, as in Python. -/
def compress (xs mask : List ℚ) : List ℚ :=
  ((xs.zip mask).filter (fun p => decide (p.2 ≠ 0))).map Prod.fst

/-- `Fitness.knapsack_fitness(capacity, weights, values)` applied to a
gene list (`fitness.py`, `fitness_function`). -/
def knapsack_fitness (capacity : ℚ) (weights values : List ℚ) (genes : List ℚ) : ℚ :=
  let total_weight := (compress weights genes).sum
  if total_weight > capacity then 0 else (compress values genes).sum

/-- Modelled from the spec wording of section 4.2 only (for comparison
with `knapsack_fitness`): the sum over indices whose gene equals 1. -/
def spec_selected_sum (xs mask : List ℚ) : ℚ :=
  (((xs.zip mask).filter (fun p => decide (p.2 = 1))).map Prod.fst).sum

/-! ### population.py: fitness evaluation -/

/-- `chromosome.set_fitness` on the object referenced by `i`. -/
def set_fitness (heap : Heap) (i : ChromId) (f : ℚ) : Heap :=
  heap.set i { objAt heap i with fitness := f }

/-- `Population.compute_fitness`: evaluate and store the fitness of
every chromosome in the reference list, in order. -/
def compute_fitness (fit : List ℚ → ℚ) (heap : Heap) (ids : List ChromId) : Heap :=
  ids.foldl (fun h i => set_fitness h i (fit (objAt h i).genes)) heap

/-! ### selection.py -/

/-- Inverse-CDF pick: the first index whose cumulative weight exceeds
the scaled draw `t`. -/
def pickIdx : List ℚ → ℚ → Nat
  | [], _ => 0
  | w :: ws, t => if t < w then 0 else pickIdx ws (t - w) + 1

/-- `numpy.random.choice(n, size = k, replace = False, p)` given the
remaining `(original index, weight)` pairs: draw one index by inverse
CDF, remove it, renormalize implicitly by scaling the next draw by the
remaining total. -/
def choiceNoRep (draws : Nat → ℚ) : Nat → Nat → List (Nat × ℚ) → List Nat
  | _, 0, _ => []
  | step, k + 1, w =>
    let t := draws step * (w.map Prod.snd).sum
    let j := pickIdx (w.map Prod.snd) t
    match w[j]? with
    | none => []
    | some pr => pr.1 :: choiceNoRep draws (step + 1) k (w.eraseIdx j)

/-- `Selection.roulette_wheel(count)` applied to a chromosome list
(`selection.py`, `selection_function`).  `numpy.min` of an empty array
raises, and `numpy.random.choice` with `replace = False` raises when
the sample is larger than the population. -/
def selection_function (count : Nat) (draws : Nat → ℚ) (heap : Heap)
    (ids : List ChromId) : Except String (List ChromId) :=
  let fitness_values := ids.map (fun i => (objAt heap i).fitness)
  match fitness_values.min? with
  | none => .error "zero-size array to reduction operation minimum which has no identity"
  | some m =>
    let shifted_fitness := fitness_values.map (fun f => f - m + 1)
    let fitness_sum := shifted_fitness.sum
    let probabilities := shifted_fitness.map (fun s => s / fitness_sum)
    if count > ids.length then
      .error "Cannot take a larger sample than population when replace is False"
    else
      let selected_indices :=
        choiceNoRep draws 0 count ((List.range ids.length).zip probabilities)
      .ok (selected_indices.map (fun i => ids.getD i 0))

/-! ### crossover.py -/

/-- `Crossover.single_point_crossover(p)` applied to a parents list
(`crossover.py`, `crossover_function`).  `decision_draw` is the
`randint(0, 1)` outcome; `point_draw` is the `randint(1, len - 1)`
outcome (its range is a hypothesis of the theorems that reach the
recombination branch).  Recombination allocates two fresh objects. -/
def crossover_function (crossover_probability : ℚ) (heap : Heap)
    (parents : List ChromId) (decision_draw : Fin 2) (point_draw : Nat) :
    Except String (Heap × List ChromId) :=
  if parents.length ≠ 2 then
    .error "Single-point crossover requires exactly 2 parents."
  else
    let g1 := (objAt heap (parents.getD 0 0)).genes
    let g2 := (objAt heap (parents.getD 1 0)).genes
    if g1.length ≠ g2.length then
      .error "Parents must have the same length."
    else if crossover_probability < 0 ∨ crossover_probability > 1 then
      .error "Crossover probability must be between 0 and 1."
    else if (decision_draw.val : ℚ) > crossover_probability then
      .ok (heap, parents)
    else
      let crossover_point := point_draw
      let offspring1 := g1.take crossover_point ++ g2.drop crossover_point
      let offspring2 := g2.take crossover_point ++ g1.drop crossover_point
      .ok (heap ++ [⟨offspring1, 0⟩, ⟨offspring2, 0⟩], [heap.length, heap.length + 1])

/-- `Population.perform_crossover`: `len(mating_pool)` iterations, each
drawing two parents with replacement (`random.choices(pool, k = 2)`,
the drawn indices come from `parentDraws`) and appending the returned
offspring.  An error aborts the loop. -/
def perform_crossover_loop (p : ℚ) (parentDraws : Nat → Nat × Nat)
    (decisionDraws : Nat → Fin 2) (pointDraws : Nat → Nat)
    (pool : List ChromId) : Nat → Nat → Heap → List ChromId →
    Heap × Except String (List ChromId)
  | _, 0, heap, acc => (heap, .ok acc)
  | t, rem + 1, heap, acc =>
    let pd := parentDraws t
    let parents := [pool.getD pd.1 0, pool.getD pd.2 0]
    match crossover_function p heap parents (decisionDraws t) (pointDraws t) with
    | .error e => (heap, .error e)
    | .ok pr => perform_crossover_loop p parentDraws decisionDraws pointDraws pool
        (t + 1) rem pr.1 (acc ++ pr.2)

/-! ### mutation.py -/

/-- Python `int(q)`: truncation toward zero. -/
def pyInt (q : ℚ) : ℤ := if 0 ≤ q then ⌊q⌋ else -⌊-q⌋

/-- The replacement value drawn when a flip-mutation gate fires
(`mutation.py`, inner branch of `mutation_function`): the binary branch
computes `int(random.uniform(0, 1))`, the floating-point branch
computes `random.choice([0, 1])`. -/
def mutation_step (genes_type : String) (uniform_draw : ℚ) (choice_draw : Fin 2) :
    Except String ℚ :=
  if genes_type = "binary" then .ok ((pyInt uniform_draw : ℤ) : ℚ)
  else if genes_type = "floating_point" then .ok ((choice_draw.val : Nat) : ℚ)
  else .error "Genes type value should either be binary, floating_point or empty."

/-- `Mutation.flip_mutation(p, genes_type)` applied to a gene list:
position `i` is redrawn when `gate i < p` (the `random.random()` gate).
On a bad `genes_type` the exception is raised by the first gate that
fires, before that iteration's gene assignment, as in the in-place
Python loop (a raise and a committed edit need opposite branches of
the constant `genes_type` test, so an erroring pass edits nothing). -/
def mutation_function (genes_type : String) (p : ℚ) (gate : Nat → ℚ)
    (valU : Nat → ℚ) (valB : Nat → Fin 2) : Nat → List ℚ → List ℚ × Option String
  | _, [] => ([], none)
  | i, g :: gs =>
    if gate i < p then
      match mutation_step genes_type (valU i) (valB i) with
      | .error e => (g :: gs, some e)
      | .ok g' =>
        let r := mutation_function genes_type p gate valU valB (i + 1) gs
        (g' :: r.1, r.2)
    else
      let r := mutation_function genes_type p gate valU valB (i + 1) gs
      (g :: r.1, r.2)

/-- `Population.mutate`: apply the mutation function to every offspring
in order.  The gene edits are in place: the heap cell of each processed
offspring is overwritten, and an error stops the loop with all earlier
edits kept. -/
def mutate_loop (genes_type : String) (p : ℚ) (gateDraws : Nat → Nat → ℚ)
    (valUDraws : Nat → Nat → ℚ) (valBDraws : Nat → Nat → Fin 2) :
    Nat → List ChromId → Heap → List ChromId → Heap × Except String (List ChromId)
  | _, [], heap, acc => (heap, .ok acc)
  | j, c :: cs, heap, acc =>
    let obj := objAt heap c
    let r := mutation_function genes_type p (gateDraws j) (valUDraws j) (valBDraws j) 0 obj.genes
    let heap' := heap.set c { obj with genes := r.1 }
    match r.2 with
    | some e => (heap', .error e)
    | none => mutate_loop genes_type p gateDraws valUDraws valBDraws (j + 1) cs heap' (acc ++ [c])

/-! ### population.py: sorting accessors and replacement -/

/-- Python `sorted(chromosomes, key = fitness)`: stable ascending. -/
def sortAscByFitness (heap : Heap) (ids : List ChromId) : List ChromId :=
  List.insertionSort (fun a b => (objAt heap a).fitness ≤ (objAt heap b).fitness) ids

/-- Python `sorted(chromosomes, key = fitness, reverse = True)`:
stable descending. -/
def sortDescByFitness (heap : Heap) (ids : List ChromId) : List ChromId :=
  List.insertionSort (fun a b => (objAt heap b).fitness ≤ (objAt heap a).fitness) ids

/-- `Population.get_least_fit_chromosomes` (always a list). -/
def get_least_fit_ids (heap : Heap) (ids : List ChromId) (k : Nat) : List ChromId :=
  (sortAscByFitness heap ids).take k

/-- The dynamic return type of `get_fittest_chromosomes`: a list of
chromosomes, or one bare chromosome. -/
inductive FitResult where
  | list : List ChromId → FitResult
  | single : ChromId → FitResult
  deriving DecidableEq, Repr

/-- `Population.get_fittest_chromosomes(k)`: a list slice when `k > 1`,
otherwise the bare element `sorted_population[0]` (`none` models the
IndexError raised on an empty population). -/
def get_fittest_chromosomes (heap : Heap) (ids : List ChromId) (k : Nat) :
    Option FitResult :=
  let sorted_population := sortDescByFitness heap ids
  if k > 1 then some (.list (sorted_population.take k))
  else sorted_population.head?.map .single

/-- `Population.get_least_fit_chromosomes(k)` with the same dynamic
codomain: always a list, never an error. -/
def get_least_fit_chromosomes (heap : Heap) (ids : List ChromId) (k : Nat) :
    Option FitResult :=
  some (.list (get_least_fit_ids heap ids k))

/-- `Population.remove_chromosomes`: keep the references that are not
members of the removal list.  Membership is Python `in`, which for
`Chromosome` (no custom eq) compares identities, i.e. our ids. -/
def remove_chromosomes (ids : List ChromId) (to_remove : List ChromId) : List ChromId :=
  ids.filter (fun c => decide (c ∉ to_remove))

/-! ### population.py: construction -/

/-- `Population.generate_new_population`.  The binary branch appends
`population_size` chromosomes of `chromosome_length` coin flips.  The
floating-point branch of the source builds a single `genes` list but
never wraps it in a `Chromosome` nor appends it to `population`, so it
returns the empty list. -/
def generate_new_population (genes_type : String)
    (population_size chromosome_length : Nat)
    (bitDraws : Nat → Nat → Fin 2) (floatDraws : Nat → ℚ) :
    Except String (List (List ℚ)) :=
  if genes_type = "binary" then
    .ok ((List.range population_size).map (fun i =>
      (List.range chromosome_length).map (fun j => ((bitDraws i j).val : ℚ))))
  else if genes_type = "floating_point" then
    let _genes := (List.range chromosome_length).map (fun j => floatDraws j)
    .ok []
  else .error "Genes type value should either be binary, floating_point or empty."

/-! ### population.py: the evolve loop -/

/-- One generation of random draws, one stream per kind of draw the
source makes. -/
structure EvolveDraws where
  selDraws : Nat → ℚ
  parentDraws : Nat → Nat × Nat
  decisionDraws : Nat → Fin 2
  pointDraws : Nat → Nat
  gateDraws : Nat → Nat → ℚ
  valUDraws : Nat → Nat → ℚ
  valBDraws : Nat → Nat → Fin 2

/-- `Population.evolve`: evaluate, select, cross over, mutate, replace.
The second component is the raised exception, if any; the first is the
observable state when the call returns or raises (`self.chromosomes`
is only reassigned by the final REPLACE step, but fitness writes and
in-place gene edits made before a raise are kept, as in the source). -/
def evolve (fit : List ℚ → ℚ) (selCount : Nat) (crossP mutP : ℚ)
    (genes_type : String) (dr : EvolveDraws) (s : PopState) :
    PopState × Option String :=
  let heap1 := compute_fitness fit s.heap s.chromosomes
  match selection_function selCount dr.selDraws heap1 s.chromosomes with
  | .error e => (⟨heap1, s.chromosomes⟩, some e)
  | .ok mating_pool =>
    match perform_crossover_loop crossP dr.parentDraws dr.decisionDraws dr.pointDraws
        mating_pool 0 mating_pool.length heap1 [] with
    | (heap2, .error e) => (⟨heap2, s.chromosomes⟩, some e)
    | (heap2, .ok offsprings_pool) =>
      match mutate_loop genes_type mutP dr.gateDraws dr.valUDraws dr.valBDraws
          0 offsprings_pool heap2 [] with
      | (heap3, .error e) => (⟨heap3, s.chromosomes⟩, some e)
      | (heap3, .ok mutated_pool) =>
        let new_population :=
          remove_chromosomes s.chromosomes
            (get_least_fit_ids heap3 s.chromosomes mutated_pool.length) ++ mutated_pool
        (⟨heap3, new_population⟩, none)

/-! ### Concrete inputs used to evaluate the code on specific runs -/

/-- Knapsack fitness with one item of weight 1 and value 10, capacity 1. -/
def kf1 : List ℚ → ℚ := knapsack_fitness 1 [1] [10]

/-- One generation of concrete draws: the selection draw lands on the
first wheel slot, both parent picks take pool position 0, the crossover
decision draw is 1 (so with probability 0 the source does not
recombine), and no mutation gate fires. -/
def traceDraws : EvolveDraws :=
  ⟨fun _ => 0, fun _ => (0, 0), fun _ => 1, fun _ => 1,
   fun _ _ => 1/2, fun _ _ => 1/2, fun _ _ => 0⟩

/-- A freshly constructed population of three distinct binary
chromosomes `[1]`, `[0]`, `[0]` with the default fitness 0. -/
def traceState0 : PopState := ⟨[⟨[1], 0⟩, ⟨[0], 0⟩, ⟨[0], 0⟩], [0, 1, 2]⟩

/-- The population state after one successful `evolve` call on
`traceState0` with roulette count 1, crossover probability 0 and
mutation probability 0. -/
def traceState1 : PopState := (evolve kf1 1 0 0 "binary" traceDraws traceState0).1

/-- Claim C1: the population size is claimed invariant across every
sequence of successful `evolve` calls.  The code violates this: with
crossover probability 0 the non-recombination branch returns the
parent objects themselves, so after the first call the population
holds the same object at all three indices; the second call then
removes the two least-fit entries by membership, which evicts every
alias, and the population of constructed size 3 ends with 2 entries.
Both calls succeed (no exception). -/
theorem evolve_shrinks_population :
    (evolve kf1 1 0 0 "binary" traceDraws traceState0).2 = none ∧
    (evolve kf1 1 0 0 "binary" traceDraws traceState1).2 = none ∧
    traceState0.chromosomes.length = 3 ∧
    (evolve kf1 1 0 0 "binary" traceDraws traceState1).1.chromosomes.length = 2 := by
  refine ⟨?_, ?_, rfl, ?_⟩ <;> with_unfolding_all rfl

/-- The two parents used to run the crossover decision at probability 0. -/
def heapC2 : Heap := [⟨[1, 0], 0⟩, ⟨[0, 1], 0⟩]

/-- Claim C2: the spec says that with probability 0 single-point
crossover never recombines.  The code draws `randint(0, 1)` and only
skips recombination when the draw exceeds the probability, so at
probability 0 the draw 0 recombines: on parents `[1,0]` and `[0,1]`
with crossover point 1 the call allocates two fresh offspring `[1,1]`
and `[0,0]` instead of returning the parents unchanged. -/
theorem crossover_p0_recombines :
    crossover_function 0 heapC2 [0, 1] 0 1 =
      .ok (heapC2 ++ [⟨[1, 1], 0⟩, ⟨[0, 0], 0⟩], [2, 3]) ∧
    [2, 3] ≠ ([0, 1] : List ChromId) := by
  exact ⟨by with_unfolding_all rfl, by decide⟩

/-- Claim C3: the spec says the binary branch of flip mutation draws a
random bit with both 0 and 1 attainable, and the real-valued branch a
value in `[0,1)`.  The code computes `int(random.uniform(0, 1))` in the
binary branch, which is 0 for every draw in `[0,1)` — the bit 1 is
never attainable — and draws `random.choice([0, 1])` in the
floating-point branch, producing a discrete bit: the two branches are
swapped.  The concrete runs mutate the binary gene 1 to 0 under the
uniform draw 9/10, and the floating-point gene 1/2 to the bit 1. -/
theorem flip_mutation_branches_swapped :
    (∀ u : ℚ, 0 ≤ u → u < 1 → ∀ b : Fin 2, mutation_step "binary" u b = .ok 0) ∧
    mutation_function "binary" 1 (fun _ => 0) (fun _ => 9/10) (fun _ => 0) 0 [1] =
      ([0], none) ∧
    mutation_function "floating_point" 1 (fun _ => 0) (fun _ => 9/10) (fun _ => 1) 0 [1/2] =
      ([1], none) := by
  refine ⟨fun u h0 h1 b => ?_, by with_unfolding_all rfl, by with_unfolding_all rfl⟩
  have hfloor : ⌊u⌋ = 0 := Int.floor_eq_zero_iff.mpr ⟨h0, h1⟩
  simp [mutation_step, pyInt, if_pos h0, hfloor]

/-- Closed instance of the universally quantified part of the claim C3
theorem, taken at the uniform draw 1/2. -/
theorem flip_mutation_branches_swapped_witness :
    mutation_step "binary" (1/2) 0 = .ok 0 :=
  flip_mutation_branches_swapped.1 (1/2) (by norm_num) (by norm_num) 0

/-- Claim C4 counterexample: a failed `evolve` call is claimed to leave
the population exactly in its pre-call state.  Requesting 4 parents
from a population of 3 makes selection raise, yet the EVALUATE step has
already run: chromosome 0 had fitness 0 before the call and fitness 10
after the failed call. -/
theorem evolve_error_changes_fitness :
    (evolve kf1 4 0 0 "binary" traceDraws traceState0).2 =
      some "Cannot take a larger sample than population when replace is False" ∧
    (objAt traceState0.heap 0).fitness = 0 ∧
    (objAt (evolve kf1 4 0 0 "binary" traceDraws traceState0).1.heap 0).fitness = 10 := by
  refine ⟨?_, rfl, ?_⟩ <;> with_unfolding_all rfl

/-- Claim C5: for a valid construction the chromosome collection is
claimed to contain `population_size` chromosomes of `chromosome_length`
genes each, for binary and real representation alike.  The binary
branch satisfies this, but the floating-point branch of the source
builds one genes list and never appends a chromosome: it returns the
empty collection, here at `population_size = 2`,
`chromosome_length = 3`. -/
theorem generate_population_size_and_genes :
    (∀ (ps cl : Nat) (bd : Nat → Nat → Fin 2) (fd : Nat → ℚ),
      ∃ l, generate_new_population "binary" ps cl bd fd = .ok l ∧
        l.length = ps ∧ ∀ g ∈ l, g.length = cl ∧ ∀ x ∈ g, x = 0 ∨ x = 1) ∧
    generate_new_population "floating_point" 2 3 (fun _ _ => 0) (fun _ => 1/2) =
      .ok ([] : List (List ℚ)) := by
  refine ⟨fun ps cl bd fd => ⟨_, rfl, by simp, ?_⟩, rfl⟩
  intro g hg
  simp only [List.mem_map] at hg
  obtain ⟨i, _, rfl⟩ := hg
  refine ⟨by simp, ?_⟩
  intro x hx
  simp only [List.mem_map] at hx
  obtain ⟨j, _, rfl⟩ := hx
  have h2 : (bd i j).val = 0 ∨ (bd i j).val = 1 := by
    have := (bd i j).isLt
    omega
  rcases h2 with h | h <;> simp [h]

/-- Claim C6 counterexample: roulette selection is claimed to return
pairwise-distinct chromosomes (no duplicate identities) whenever
`count ≤ n`.  On a population list holding the same object at both
positions (aliasing that `evolve` itself produces), the two drawn
indices are distinct but both dereference to object 0: the returned
pool `[0, 0]` holds one identity twice. -/
theorem roulette_selection_duplicate_identities :
    selection_function 2 (fun _ => 0) [⟨[0], 5⟩] [0, 0] = .ok [0, 0] ∧
    ¬ ([0, 0] : List ChromId).Nodup := by
  exact ⟨by with_unfolding_all rfl, by decide⟩

/-- With a recognized `genes_type` the flip-mutation pass never
raises. -/
lemma mutation_function_no_error_of_valid (gt : String)
    (hgt : gt = "binary" ∨ gt = "floating_point") (p : ℚ) (gate : Nat → ℚ)
    (valU : Nat → ℚ) (valB : Nat → Fin 2) :
    ∀ (i : Nat) (gs : List ℚ), (mutation_function gt p gate valU valB i gs).2 = none := by
  intro i gs
  induction gs generalizing i with
  | nil => rfl
  | cons g gs ih =>
    unfold mutation_function
    by_cases hg : gate i < p
    · rw [if_pos hg]
      have hstep : ∃ g', mutation_step gt (valU i) (valB i) = .ok g' := by
        rcases hgt with rfl | rfl
        · exact ⟨((pyInt (valU i) : ℤ) : ℚ), by simp [mutation_step]⟩
        · exact ⟨(((valB i).val : Nat) : ℚ), by simp [mutation_step]⟩
      obtain ⟨g', hs⟩ := hstep
      rw [hs]
      exact ih (i + 1)
    · rw [if_neg hg]
      exact ih (i + 1)

/-- A raising flip-mutation pass leaves the gene list unchanged: a
raise needs an unrecognized `genes_type`, under which every firing
gate raises before assigning, so nothing was edited. -/
lemma mutation_function_unchanged_of_error (gt : String) (p : ℚ) (gate : Nat → ℚ)
    (valU : Nat → ℚ) (valB : Nat → Fin 2) :
    ∀ (i : Nat) (gs : List ℚ) (e : String),
      (mutation_function gt p gate valU valB i gs).2 = some e →
      (mutation_function gt p gate valU valB i gs).1 = gs := by
  intro i gs
  induction gs generalizing i with
  | nil => intro e h; exact Option.noConfusion h
  | cons g gs ih =>
    intro e h
    unfold mutation_function at h ⊢
    by_cases hg : gate i < p
    · rw [if_pos hg] at h ⊢
      rcases hs : mutation_step gt (valU i) (valB i) with e0 | g'
      · rfl
      · rw [hs] at h
        exfalso
        have hvalid : gt = "binary" ∨ gt = "floating_point" := by
          by_contra hnv
          push_neg at hnv
          unfold mutation_step at hs
          rw [if_neg hnv.1, if_neg hnv.2] at hs
          exact Except.noConfusion hs
        have hnone := mutation_function_no_error_of_valid gt hvalid p gate valU valB (i + 1) gs
        have h2 : (mutation_function gt p gate valU valB (i + 1) gs).2 = some e := h
        rw [hnone] at h2
        exact Option.noConfusion h2
    · rw [if_neg hg] at h ⊢
      have h2 : (mutation_function gt p gate valU valB (i + 1) gs).2 = some e := h
      show g :: (mutation_function gt p gate valU valB (i + 1) gs).1 = g :: gs
      rw [ih (i + 1) e h2]

/-- With an unrecognized `genes_type`, a non-raising flip-mutation pass
means no gate fired, so the gene list is unchanged. -/
lemma mutation_function_unchanged_of_invalid (gt : String)
    (hb : gt ≠ "binary") (hf : gt ≠ "floating_point") (p : ℚ) (gate : Nat → ℚ)
    (valU : Nat → ℚ) (valB : Nat → Fin 2) :
    ∀ (i : Nat) (gs : List ℚ),
      (mutation_function gt p gate valU valB i gs).2 = none →
      (mutation_function gt p gate valU valB i gs).1 = gs := by
  intro i gs
  induction gs generalizing i with
  | nil => intro _; rfl
  | cons g gs ih =>
    intro h
    unfold mutation_function at h ⊢
    by_cases hg : gate i < p
    · rw [if_pos hg] at h ⊢
      rcases hs : mutation_step gt (valU i) (valB i) with e0 | g'
      · rfl
      · exfalso
        unfold mutation_step at hs
        rw [if_neg hb, if_neg hf] at hs
        exact Except.noConfusion hs
    · rw [if_neg hg] at h ⊢
      have h2 : (mutation_function gt p gate valU valB (i + 1) gs).2 = none := h
      show g :: (mutation_function gt p gate valU valB (i + 1) gs).1 = g :: gs
      rw [ih (i + 1) h2]

/-- Writing back the object a cell already holds changes nothing. -/
lemma set_objAt_self : ∀ (heap : Heap) (c : Nat), heap.set c (objAt heap c) = heap
  | [], _ => rfl
  | _ :: _, 0 => rfl
  | x :: xs, c + 1 => congrArg (fun l => x :: l) (set_objAt_self xs c)

/-- With a recognized `genes_type` the MUTATE stage never raises. -/
lemma mutate_loop_no_error_of_valid (gt : String)
    (hgt : gt = "binary" ∨ gt = "floating_point") (p : ℚ) (gd : Nat → Nat → ℚ)
    (vu : Nat → Nat → ℚ) (vb : Nat → Nat → Fin 2) :
    ∀ (cs : List ChromId) (j : Nat) (heap : Heap) (acc : List ChromId),
      ∃ l, (mutate_loop gt p gd vu vb j cs heap acc).2 = .ok l := by
  intro cs
  induction cs with
  | nil => intro j heap acc; exact ⟨acc, rfl⟩
  | cons c cs ih =>
    intro j heap acc
    simp only [mutate_loop]
    have hr : (mutation_function gt p (gd j) (vu j) (vb j) 0 (objAt heap c).genes).2 = none :=
      mutation_function_no_error_of_valid gt hgt p (gd j) (vu j) (vb j) 0 _
    rw [hr]
    exact ih (j + 1) _ _

/-- A raising MUTATE stage leaves the heap exactly as it was: every
cell write on the error path writes back the cell's own content. -/
lemma mutate_loop_heap_of_error (gt : String) (p : ℚ) (gd : Nat → Nat → ℚ)
    (vu : Nat → Nat → ℚ) (vb : Nat → Nat → Fin 2) :
    ∀ (cs : List ChromId) (j : Nat) (heap : Heap) (acc : List ChromId) (e : String),
      (mutate_loop gt p gd vu vb j cs heap acc).2 = .error e →
      (mutate_loop gt p gd vu vb j cs heap acc).1 = heap := by
  intro cs
  induction cs with
  | nil => intro j heap acc e h; exact Except.noConfusion h
  | cons c cs ih =>
    intro j heap acc e h
    simp only [mutate_loop] at h ⊢
    set r := mutation_function gt p (gd j) (vu j) (vb j) 0 (objAt heap c).genes with hrdef
    rcases hr2 : r.2 with _ | e0
    · rw [hr2] at h
      by_cases hvalid : gt = "binary" ∨ gt = "floating_point"
      · exfalso
        obtain ⟨l, hl⟩ := mutate_loop_no_error_of_valid gt hvalid p gd vu vb cs (j + 1)
          (heap.set c { objAt heap c with genes := r.1 }) (acc ++ [c])
        have h2 : (mutate_loop gt p gd vu vb (j + 1) cs
            (heap.set c { objAt heap c with genes := r.1 }) (acc ++ [c])).2 =
            Except.error e := h
        rw [hl] at h2
        exact Except.noConfusion h2
      · push_neg at hvalid
        have hr1 : r.1 = (objAt heap c).genes := by
          rw [hrdef]
          exact mutation_function_unchanged_of_invalid gt hvalid.1 hvalid.2
            p (gd j) (vu j) (vb j) 0 (objAt heap c).genes (by rw [← hrdef]; exact hr2)
        have hset : heap.set c { objAt heap c with genes := r.1 } = heap := by
          rw [hr1]
          exact set_objAt_self heap c
        have h2 : (mutate_loop gt p gd vu vb (j + 1) cs
            (heap.set c { objAt heap c with genes := r.1 }) (acc ++ [c])).2 =
            Except.error e := h
        rw [hset] at h2
        show (mutate_loop gt p gd vu vb (j + 1) cs
            (heap.set c { objAt heap c with genes := r.1 }) (acc ++ [c])).1 = heap
        rw [hset]
        exact ih (j + 1) heap (acc ++ [c]) e h2
    · have hr1 : r.1 = (objAt heap c).genes := by
        rw [hrdef]
        exact mutation_function_unchanged_of_error gt p (gd j) (vu j) (vb j)
          0 (objAt heap c).genes e0 (by rw [← hrdef]; exact hr2)
      show heap.set c { objAt heap c with genes := r.1 } = heap
      rw [hr1]
      exact set_objAt_self heap c

/-- A cell write that keeps the cell's genes leaves every cell's genes
unchanged. -/
lemma genes_objAt_set : ∀ (heap : Heap) (c : Nat) (v : ChromObj),
    v.genes = (objAt heap c).genes → ∀ (i : Nat),
    (objAt (heap.set c v) i).genes = (objAt heap i).genes
  | [], _, _, _, _ => rfl
  | _ :: _, 0, _, hv, 0 => hv
  | _ :: _, 0, _, _, _ + 1 => rfl
  | _ :: _, _ + 1, _, _, 0 => rfl
  | _ :: xs, c + 1, v, hv, i + 1 => genes_objAt_set xs c v hv i

/-- EVALUATE writes fitness values only: genes are untouched. -/
lemma genes_compute_fitness (fit : List ℚ → ℚ) :
    ∀ (ids : List ChromId) (heap : Heap) (i : Nat),
      (objAt (compute_fitness fit heap ids) i).genes = (objAt heap i).genes := by
  intro ids
  induction ids with
  | nil => intro heap i; rfl
  | cons a ids ih =>
    intro heap i
    show (objAt (compute_fitness fit
      (set_fitness heap a (fit (objAt heap a).genes)) ids) i).genes = _
    rw [ih]
    exact genes_objAt_set heap a
      { objAt heap a with fitness := fit (objAt heap a).genes } rfl i

/-- EVALUATE does not change the number of heap cells. -/
lemma length_compute_fitness (fit : List ℚ → ℚ) :
    ∀ (ids : List ChromId) (heap : Heap),
      (compute_fitness fit heap ids).length = heap.length := by
  intro ids
  induction ids with
  | nil => intro heap; rfl
  | cons a ids ih =>
    intro heap
    show (compute_fitness fit (set_fitness heap a (fit (objAt heap a).genes)) ids).length = _
    rw [ih]
    simp only [set_fitness, List.length_set]

/-- A successful crossover call only ever appends fresh offspring
cells: every pre-existing cell is untouched and the heap only grows. -/
lemma crossover_function_preserves (cp : ℚ) (heap : Heap) (parents : List ChromId)
    (d : Fin 2) (pt : Nat) (pr : Heap × List ChromId)
    (h : crossover_function cp heap parents d pt = .ok pr) :
    (∀ i, i < heap.length → objAt pr.1 i = objAt heap i) ∧
    heap.length ≤ pr.1.length := by
  simp only [crossover_function] at h
  by_cases h1 : parents.length ≠ 2
  · rw [if_pos h1] at h
    exact Except.noConfusion h
  · rw [if_neg h1] at h
    by_cases h2 : (objAt heap (parents.getD 0 0)).genes.length ≠
        (objAt heap (parents.getD 1 0)).genes.length
    · rw [if_pos h2] at h
      exact Except.noConfusion h
    · rw [if_neg h2] at h
      by_cases h3 : cp < 0 ∨ cp > 1
      · rw [if_pos h3] at h
        exact Except.noConfusion h
      · rw [if_neg h3] at h
        by_cases h4 : (d.val : ℚ) > cp
        · rw [if_pos h4] at h
          rw [Except.ok.injEq] at h
          rw [← h]
          exact ⟨fun i _ => rfl, le_refl _⟩
        · rw [if_neg h4] at h
          rw [Except.ok.injEq] at h
          rw [← h]
          refine ⟨fun i hi => ?_, by simp⟩
          simp only [objAt]
          rw [List.getD_append _ _ _ _ hi]

/-- The CROSSOVER stage (successful or raising) only ever appends fresh
offspring cells: every pre-existing cell is untouched and the heap only
grows. -/
lemma perform_crossover_loop_preserves (cp : ℚ) (pd : Nat → Nat × Nat)
    (dd : Nat → Fin 2) (ptd : Nat → Nat) (pool : List ChromId) :
    ∀ (rem t : Nat) (heap : Heap) (acc : List ChromId),
      (∀ i, i < heap.length →
        objAt ((perform_crossover_loop cp pd dd ptd pool t rem heap acc).1) i =
          objAt heap i) ∧
      heap.length ≤ ((perform_crossover_loop cp pd dd ptd pool t rem heap acc).1).length := by
  intro rem
  induction rem with
  | zero => intro t heap acc; exact ⟨fun i _ => rfl, le_refl _⟩
  | succ rem ih =>
    intro t heap acc
    simp only [perform_crossover_loop]
    rcases hc : crossover_function cp heap [pool.getD (pd t).1 0, pool.getD (pd t).2 0]
      (dd t) (ptd t) with e | pr
    · exact ⟨fun i _ => rfl, le_refl _⟩
    · show (∀ i, i < heap.length →
          objAt ((perform_crossover_loop cp pd dd ptd pool (t + 1) rem pr.1
            (acc ++ pr.2)).1) i = objAt heap i) ∧
        heap.length ≤ ((perform_crossover_loop cp pd dd ptd pool (t + 1) rem pr.1
          (acc ++ pr.2)).1).length
      obtain ⟨ihp, ihl⟩ := ih (t + 1) pr.1 (acc ++ pr.2)
      obtain ⟨hcp, hcl⟩ := crossover_function_preserves cp heap _ (dd t) (ptd t) pr hc
      refine ⟨fun i hi => ?_, le_trans hcl ihl⟩
      rw [ihp i (lt_of_lt_of_le hi hcl), hcp i hi]

/-- Claim C4 (amended): whatever error an `evolve` call raises, both
the membership of the chromosome collection and every pre-call
chromosome's genes are unchanged — the REPLACE assignment happens only
on the success path, crossover only allocates fresh objects, and the
only MUTATE-stage error fires before any gene assignment — but fitness
values written by EVALUATE before the raise remain observable. -/
theorem evolve_error_preserves_membership_and_genes (fit : List ℚ → ℚ) (selCount : Nat)
    (crossP mutP : ℚ) (gt : String) (dr : EvolveDraws) (s : PopState) (e : String)
    (h : (evolve fit selCount crossP mutP gt dr s).2 = some e) :
    (evolve fit selCount crossP mutP gt dr s).1.chromosomes = s.chromosomes ∧
    ∀ i, i < s.heap.length →
      (objAt (evolve fit selCount crossP mutP gt dr s).1.heap i).genes =
        (objAt s.heap i).genes := by
  simp only [evolve] at h ⊢
  rcases hsel : selection_function selCount dr.selDraws
      (compute_fitness fit s.heap s.chromosomes) s.chromosomes with e1 | pool
  · simp only [hsel]
    exact ⟨trivial, fun i _ => genes_compute_fitness fit s.chromosomes s.heap i⟩
  · simp only [hsel] at h ⊢
    rcases hcl : perform_crossover_loop crossP dr.parentDraws dr.decisionDraws dr.pointDraws
        pool 0 pool.length (compute_fitness fit s.heap s.chromosomes) [] with ⟨heap2, ex2⟩
    have hlen1 : (compute_fitness fit s.heap s.chromosomes).length = s.heap.length :=
      length_compute_fitness fit s.chromosomes s.heap
    have hheap2 : ∀ i, i < s.heap.length →
        (objAt heap2 i).genes = (objAt s.heap i).genes := by
      intro i hi
      have hp := (perform_crossover_loop_preserves crossP dr.parentDraws dr.decisionDraws
        dr.pointDraws pool pool.length 0 (compute_fitness fit s.heap s.chromosomes) []).1
        i (by rw [hlen1]; exact hi)
      rw [hcl] at hp
      rw [show objAt heap2 i = objAt (heap2, ex2).1 i from rfl, hp]
      exact genes_compute_fitness fit s.chromosomes s.heap i
    rcases ex2 with e2 | offs
    · simp only [hcl]
      exact ⟨trivial, hheap2⟩
    · simp only [hcl] at h ⊢
      rcases hml : mutate_loop gt mutP dr.gateDraws dr.valUDraws dr.valBDraws
          0 offs heap2 [] with ⟨heap3, ex3⟩
      rcases ex3 with e3 | mpool
      · simp only [hml]
        have hml2 : (mutate_loop gt mutP dr.gateDraws dr.valUDraws dr.valBDraws
            0 offs heap2 []).2 = .error e3 := by rw [hml]
        have hml1 := mutate_loop_heap_of_error gt mutP dr.gateDraws dr.valUDraws dr.valBDraws
          offs 0 heap2 [] e3 hml2
        rw [hml] at hml1
        refine ⟨trivial, fun i hi => ?_⟩
        rw [show (heap3 : Heap) = (heap3, Except.error (ε := String) e3).1 from rfl, hml1]
        exact hheap2 i hi
      · simp only [hml] at h
        exact Option.noConfusion h

/-- Closed instance for the claim C4 theorem: requesting 4 parents from
a population of 3 raises, and the failed call leaves both the
membership of the collection and every chromosome's genes unchanged. -/
theorem evolve_error_preserves_membership_and_genes_witness :
    (evolve kf1 4 0 0 "binary" traceDraws traceState0).1.chromosomes =
        traceState0.chromosomes ∧
    ∀ i, i < traceState0.heap.length →
      (objAt (evolve kf1 4 0 0 "binary" traceDraws traceState0).1.heap i).genes =
        (objAt traceState0.heap i).genes :=
  evolve_error_preserves_membership_and_genes kf1 4 0 0 "binary" traceDraws traceState0
    "Cannot take a larger sample than population when replace is False"
    (by with_unfolding_all rfl)

/-- Claim C7: knapsack fitness of a 0/1 gene mask is 0 when the
selected weight exceeds the capacity and the selected value otherwise,
where selected sums range over the positions whose gene equals 1; on
weights `[5,4,3]`, values `[10,40,30]`, capacity 10, the masks
`[1,1,0]`, `[1,1,1]` and `[0,0,0]` score 50, 0 and 0. -/
theorem knapsack_fitness_matches_spec (cap : ℚ) (w v g : List ℚ)
    (hm : ∀ x ∈ g, x = 0 ∨ x = 1) :
    knapsack_fitness cap w v g =
      (if spec_selected_sum w g > cap then 0 else spec_selected_sum v g) ∧
    knapsack_fitness 10 [5, 4, 3] [10, 40, 30] [1, 1, 0] = 50 ∧
    knapsack_fitness 10 [5, 4, 3] [10, 40, 30] [1, 1, 1] = 0 ∧
    knapsack_fitness 10 [5, 4, 3] [10, 40, 30] [0, 0, 0] = 0 := by
  have key : ∀ xs : List ℚ, (compress xs g).sum = spec_selected_sum xs g := by
    intro xs
    unfold compress spec_selected_sum
    rw [List.filter_congr (fun pr hpr => ?_)]
    rcases hm pr.2 (List.of_mem_zip hpr).2 with h0 | h1
    · simp [h0]
    · simp [h1]
  refine ⟨?_, ?_, ?_, ?_⟩
  · unfold knapsack_fitness
    rw [key w, key v]
  · with_unfolding_all rfl
  · with_unfolding_all rfl
  · with_unfolding_all rfl

/-- Closed instance for the claim C7 theorem at the mask `[1,1,0]`. -/
theorem knapsack_fitness_matches_spec_witness :
    knapsack_fitness 10 [5, 4, 3] [10, 40, 30] [1, 1, 0] =
      (if spec_selected_sum [5, 4, 3] [1, 1, 0] > 10 then 0
       else spec_selected_sum [10, 40, 30] [1, 1, 0]) :=
  (knapsack_fitness_matches_spec 10 [5, 4, 3] [10, 40, 30] [1, 1, 0] (by decide)).1

/-- Claim C9: replacement removal works on object identity.  For two
distinct chromosome objects `i ≠ j` with identical genes and identical
fitness, removing `i` evicts `i` and never evicts `j`: `Chromosome`
defines no value equality, so Python membership compares identities. -/
theorem removal_is_by_identity (heap : Heap) (ids : List ChromId) (i j : ChromId)
    (hij : i ≠ j) (_hgenes : (objAt heap i).genes = (objAt heap j).genes)
    (_hfit : (objAt heap i).fitness = (objAt heap j).fitness) (hj : j ∈ ids) :
    j ∈ remove_chromosomes ids [i] ∧ i ∉ remove_chromosomes ids [i] := by
  unfold remove_chromosomes
  constructor
  · refine List.mem_filter.mpr ⟨hj, ?_⟩
    simp [hij.symm]
  · intro hmem
    have := (List.mem_filter.mp hmem).2
    simp at this

/-- Closed instance for the claim C9 theorem: two objects with genes
`[1]` and fitness 2 at distinct heap cells 0 and 1; removing object 0
from `[0, 1]` keeps object 1. -/
theorem removal_is_by_identity_witness :
    (1 : ChromId) ∈ remove_chromosomes [0, 1] [0] ∧
    (0 : ChromId) ∉ remove_chromosomes [0, 1] [0] :=
  removal_is_by_identity [⟨[1], 2⟩, ⟨[1], 2⟩] [0, 1] 0 1
    (by decide) rfl rfl (by decide)

/-- Claim C10: on a nonempty population, `get_fittest_chromosomes(k)`
with `k ≤ 1` (the default included) returns the bare fittest chromosome
object — the head of the stable descending sort — not a one-element
list, while `get_least_fit_chromosomes(k)` returns a list for every
`k`. -/
theorem get_fittest_bare_but_least_fit_list (heap : Heap) (ids : List ChromId)
    (k : Nat) (hne : ids ≠ []) (hk : k ≤ 1) :
    (∃ b, get_fittest_chromosomes heap ids k = some (.single b) ∧ b ∈ ids ∧
      ∀ j ∈ ids, (objAt heap j).fitness ≤ (objAt heap b).fitness) ∧
    ∀ m, ∃ l, get_least_fit_chromosomes heap ids m = some (.list l) := by
  refine ⟨?_, fun m => ⟨_, rfl⟩⟩
  have hperm : List.Perm (sortDescByFitness heap ids) ids := List.perm_insertionSort _ _
  have hsorted : List.Sorted
      (fun a b => (objAt heap b).fitness ≤ (objAt heap a).fitness)
      (sortDescByFitness heap ids) := by
    haveI : IsTotal ChromId (fun a b => (objAt heap b).fitness ≤ (objAt heap a).fitness) :=
      ⟨fun a b => le_total _ _⟩
    haveI : IsTrans ChromId (fun a b => (objAt heap b).fitness ≤ (objAt heap a).fitness) :=
      ⟨fun a b c hab hbc => le_trans hbc hab⟩
    exact List.sorted_insertionSort _ _
  rcases hs : sortDescByFitness heap ids with _ | ⟨b, rest⟩
  · rw [hs] at hperm
    exact absurd hperm.nil_eq.symm hne
  · rw [hs] at hperm hsorted
    refine ⟨b, ?_, hperm.subset (List.mem_cons_self b rest), ?_⟩
    · simp only [get_fittest_chromosomes]
      rw [if_neg (by omega : ¬ k > 1), hs]
      rfl
    · intro j hj
      have hjs : j ∈ b :: rest := hperm.mem_iff.mpr hj
      rcases List.mem_cons.mp hjs with rfl | hjr
      · exact le_refl _
      · exact List.rel_of_sorted_cons hsorted j hjr

/-- Closed instance for the claim C10 theorem on a two-chromosome
population with fitness 1 and 7: `get_fittest_chromosomes(1)` is the
bare object 1 and `get_least_fit_chromosomes(1)` is a list. -/
theorem get_fittest_bare_but_least_fit_list_witness :
    (∃ b, get_fittest_chromosomes [⟨[0], 1⟩, ⟨[1], 7⟩] [0, 1] 1 =
        some (.single b) ∧ b ∈ ([0, 1] : List ChromId) ∧
      ∀ j ∈ ([0, 1] : List ChromId),
        (objAt [⟨[0], 1⟩, ⟨[1], 7⟩] j).fitness ≤
          (objAt [⟨[0], 1⟩, ⟨[1], 7⟩] b).fitness) ∧
    ∀ m, ∃ l, get_least_fit_chromosomes [⟨[0], 1⟩, ⟨[1], 7⟩] [0, 1] m =
        some (.list l) :=
  get_fittest_bare_but_least_fit_list [⟨[0], 1⟩, ⟨[1], 7⟩] [0, 1] 1
    (by decide) (by decide)

/-- Claim C8: at probability 1 every decision draw recombines, and the
two offspring restore both parents around the crossover point:
`offspring1[:point] + offspring2[point:]` is parent 1's full gene list
and symmetrically for parent 2. -/
theorem single_point_crossover_roundtrip (heap : Heap) (i j : ChromId)
    (d : Fin 2) (pt : Nat)
    (hlen : (objAt heap i).genes.length = (objAt heap j).genes.length)
    (_hn : 2 ≤ (objAt heap i).genes.length)
    (_hpt1 : 1 ≤ pt) (hpt2 : pt ≤ (objAt heap i).genes.length - 1) :
    crossover_function 1 heap [i, j] d pt =
      .ok (heap ++
          [⟨(objAt heap i).genes.take pt ++ (objAt heap j).genes.drop pt, 0⟩,
           ⟨(objAt heap j).genes.take pt ++ (objAt heap i).genes.drop pt, 0⟩],
        [heap.length, heap.length + 1]) ∧
    ((objAt heap i).genes.take pt ++ (objAt heap j).genes.drop pt).take pt ++
        ((objAt heap j).genes.take pt ++ (objAt heap i).genes.drop pt).drop pt =
      (objAt heap i).genes ∧
    ((objAt heap j).genes.take pt ++ (objAt heap i).genes.drop pt).take pt ++
        ((objAt heap i).genes.take pt ++ (objAt heap j).genes.drop pt).drop pt =
      (objAt heap j).genes := by
  have hpti : pt ≤ (objAt heap i).genes.length := le_trans hpt2 (Nat.sub_le _ _)
  have hptj : pt ≤ (objAt heap j).genes.length := hlen ▸ hpti
  have ti : ((objAt heap i).genes.take pt).length = pt := by
    rw [List.length_take]; omega
  have tj : ((objAt heap j).genes.take pt).length = pt := by
    rw [List.length_take]; omega
  refine ⟨?_, ?_, ?_⟩
  · have hd : ¬ ((d.val : ℚ) > 1) := by
      have hv : d.val ≤ 1 := Nat.lt_succ_iff.mp d.isLt
      exact not_lt.mpr (by exact_mod_cast hv)
    simp only [crossover_function, List.length_cons, List.length_nil,
      List.getD_cons_zero, List.getD_cons_succ]
    rw [if_neg (by omega), if_neg (by omega), if_neg (by norm_num), if_neg hd]
  · rw [List.take_left' ti, List.drop_left' tj, List.take_append_drop]
  · rw [List.take_left' tj, List.drop_left' ti, List.take_append_drop]

/-- Closed instance for the claim C8 theorem: parents `[1,2]` and
`[3,4]` at point 1 recombine into `[1,4]` and `[3,2]`, and the
round-trip restores both parents. -/
theorem single_point_crossover_roundtrip_witness :
    crossover_function 1 [⟨[1, 2], 0⟩, ⟨[3, 4], 0⟩] [0, 1] 0 1 =
      .ok ([⟨[1, 2], 0⟩, ⟨[3, 4], 0⟩] ++
          [⟨(objAt [⟨[1, 2], 0⟩, ⟨[3, 4], 0⟩] 0).genes.take 1 ++
              (objAt [⟨[1, 2], 0⟩, ⟨[3, 4], 0⟩] 1).genes.drop 1, 0⟩,
           ⟨(objAt [⟨[1, 2], 0⟩, ⟨[3, 4], 0⟩] 1).genes.take 1 ++
              (objAt [⟨[1, 2], 0⟩, ⟨[3, 4], 0⟩] 0).genes.drop 1, 0⟩],
        [2, 3]) ∧
    ((objAt [⟨[1, 2], 0⟩, ⟨[3, 4], 0⟩] 0).genes.take 1 ++
        (objAt [⟨[1, 2], 0⟩, ⟨[3, 4], 0⟩] 1).genes.drop 1).take 1 ++
      ((objAt [⟨[1, 2], 0⟩, ⟨[3, 4], 0⟩] 1).genes.take 1 ++
        (objAt [⟨[1, 2], 0⟩, ⟨[3, 4], 0⟩] 0).genes.drop 1).drop 1 =
      (objAt [⟨[1, 2], 0⟩, ⟨[3, 4], 0⟩] 0).genes ∧
    ((objAt [⟨[1, 2], 0⟩, ⟨[3, 4], 0⟩] 1).genes.take 1 ++
        (objAt [⟨[1, 2], 0⟩, ⟨[3, 4], 0⟩] 0).genes.drop 1).take 1 ++
      ((objAt [⟨[1, 2], 0⟩, ⟨[3, 4], 0⟩] 0).genes.take 1 ++
        (objAt [⟨[1, 2], 0⟩, ⟨[3, 4], 0⟩] 1).genes.drop 1).drop 1 =
      (objAt [⟨[1, 2], 0⟩, ⟨[3, 4], 0⟩] 1).genes :=
  single_point_crossover_roundtrip [⟨[1, 2], 0⟩, ⟨[3, 4], 0⟩] 0 1 0 1
    (by decide) (by decide) (by decide) (by decide)

/-- The inverse-CDF pick lands inside the weight list whenever the
scaled draw is nonnegative and below the total weight. -/
lemma pickIdx_lt (ws : List ℚ) (t : ℚ) (h0 : 0 ≤ t) (h1 : t < ws.sum) :
    pickIdx ws t < ws.length := by
  induction ws generalizing t with
  | nil =>
    simp only [List.sum_nil] at h1
    exact absurd h1 (not_lt.mpr h0)
  | cons w ws ih =>
    unfold pickIdx
    by_cases hw : t < w
    · simp [hw]
    · rw [if_neg hw]
      have hws : t - w < ws.sum := by
        rw [List.sum_cons] at h1; linarith
      have h0w : 0 ≤ t - w := by
        have := not_lt.mp hw; linarith

      simpa using Nat.succ_lt_succ (ih (t - w) h0w hws)

/-- Mapping commutes with index removal. -/
lemma map_eraseIdx_comm {α β : Type} (f : α → β) :
    ∀ (l : List α) (n : Nat), (l.eraseIdx n).map f = (l.map f).eraseIdx n
  | [], _ => rfl
  | _ :: _, 0 => rfl
  | x :: xs, n + 1 => by
    simp only [List.eraseIdx_cons_succ, List.map_cons]
    rw [map_eraseIdx_comm f xs n]

/-- In a duplicate-free list, the element at a removed index does not
survive the removal. -/
lemma get_not_mem_eraseIdx {α : Type} :
    ∀ (l : List α) (n : Nat) (h : n < l.length), l.Nodup →
      l.get ⟨n, h⟩ ∉ l.eraseIdx n
  | x :: xs, 0, _, hnd => by
    simpa using (List.nodup_cons.mp hnd).1
  | x :: xs, n + 1, h, hnd => by
    simp only [List.eraseIdx_cons_succ, List.mem_cons]
    push_neg
    have hlt : n < xs.length := by simpa using Nat.lt_of_succ_lt_succ h
    constructor
    · intro he
      exact (List.nodup_cons.mp hnd).1
        (he ▸ List.get_mem xs n hlt)
    · exact get_not_mem_eraseIdx xs n hlt (List.nodup_cons.mp hnd).2

/-- Correctness of the without-replacement sampler: with positive
weights over duplicate-free original indices and draws in `[0,1)`,
drawing `k ≤ |w|` times yields `k` pairwise-distinct original indices
taken from `w`. -/
lemma choiceNoRep_spec (draws : Nat → ℚ) (hd : ∀ t, 0 ≤ draws t ∧ draws t < 1) :
    ∀ (k step : Nat) (w : List (Nat × ℚ)),
      (∀ x ∈ w, 0 < x.2) → (w.map Prod.fst).Nodup → k ≤ w.length →
      (choiceNoRep draws step k w).length = k ∧
      (choiceNoRep draws step k w).Nodup ∧
      ∀ a ∈ choiceNoRep draws step k w, a ∈ w.map Prod.fst := by
  intro k
  induction k with
  | zero =>
    intro step w _ _ _
    refine ⟨rfl, List.nodup_nil, ?_⟩
    intro a ha
    simp [choiceNoRep] at ha
  | succ k ih =>
    intro step w hpos hnd hk
    have hwne : w ≠ [] := by
      intro hnil; rw [hnil] at hk; simp at hk
    have hmapne : (w.map Prod.snd) ≠ [] := by simpa using hwne
    have hsum : 0 < (w.map Prod.snd).sum := by
      refine List.sum_pos _ (fun x hx => ?_) hmapne
      obtain ⟨y, hy, rfl⟩ := List.mem_map.mp hx
      exact hpos y hy
    have ht0 : 0 ≤ draws step * (w.map Prod.snd).sum :=
      mul_nonneg (hd step).1 hsum.le
    have ht1 : draws step * (w.map Prod.snd).sum < (w.map Prod.snd).sum :=
      mul_lt_of_lt_one_left hsum (hd step).2
    have hj : pickIdx (w.map Prod.snd) (draws step * (w.map Prod.snd).sum) < w.length := by
      have := pickIdx_lt (w.map Prod.snd) _ ht0 ht1
      simpa using this
    set j := pickIdx (w.map Prod.snd) (draws step * (w.map Prod.snd).sum) with hjdef
    have hget : w[j]? = some (w.get ⟨j, hj⟩) := by
      rw [List.getElem?_eq_getElem hj, List.get_eq_getElem]
    have hstep : choiceNoRep draws step (k + 1) w =
        (w.get ⟨j, hj⟩).1 :: choiceNoRep draws (step + 1) k (w.eraseIdx j) := by
      conv_lhs => rw [choiceNoRep]
      rw [← hjdef, hget]
    have herased_map : (w.eraseIdx j).map Prod.fst = (w.map Prod.fst).eraseIdx j :=
      map_eraseIdx_comm _ w j
    obtain ⟨ihlen, ihnd, ihmem⟩ := ih (step + 1) (w.eraseIdx j)
      (fun x hx => hpos x ((List.eraseIdx_sublist w j).subset hx))
      (by rw [herased_map]; exact hnd.sublist ((List.map Prod.fst w).eraseIdx_sublist j))
      (by rw [List.length_eraseIdx_of_lt hj]; omega)
    have hjm : j < (w.map Prod.fst).length := by simpa using hj
    have hgetm : (w.map Prod.fst).get ⟨j, hjm⟩ = (w.get ⟨j, hj⟩).1 := by
      simp [List.get_eq_getElem, List.getElem_map]
    have hhead_not : (w.get ⟨j, hj⟩).1 ∉ (w.eraseIdx j).map Prod.fst := by
      rw [herased_map, ← hgetm]
      exact get_not_mem_eraseIdx (w.map Prod.fst) j hjm hnd
    refine ⟨?_, ?_, ?_⟩
    · rw [hstep]
      simp [ihlen]
    · rw [hstep]
      exact List.nodup_cons.mpr ⟨fun hmem => hhead_not (ihmem _ hmem), ihnd⟩
    · rw [hstep]
      intro a ha
      rcases List.mem_cons.mp ha with rfl | ha2
      · exact List.mem_map.mpr ⟨_, List.get_mem w j hj, rfl⟩
      · exact ((List.eraseIdx_sublist w j).map Prod.fst).subset (ihmem a ha2)

/-- Claim C6 (amended): on a nonempty duplicate-free chromosome list,
roulette-wheel selection with valid draws returns exactly `count`
pairwise-distinct chromosomes of the list whenever `count ≤ n` — the
wheel weights being the shifted fitness values `f - min(f) + 1` as in
the source — it raises whenever `count > n`, and it raises on an empty
list for every `count` (the fitness minimum of an empty array has no
identity). -/
theorem roulette_selection_spec (heap : Heap) (ids : List ChromId) (count : Nat)
    (draws : Nat → ℚ) :
    (ids ≠ [] → ids.Nodup → count ≤ ids.length →
      (∀ t, 0 ≤ draws t ∧ draws t < 1) →
      ∃ l, selection_function count draws heap ids = .ok l ∧
        l.length = count ∧ l.Nodup ∧ ∀ c ∈ l, c ∈ ids) ∧
    (count > ids.length → ∃ e, selection_function count draws heap ids = .error e) ∧
    (ids = [] → ∃ e, selection_function count draws heap ids = .error e) := by
  refine ⟨?_, ?_, ?_⟩
  · intro hne hnd hcount hdr
    set fv := ids.map (fun i => (objAt heap i).fitness) with hfv
    have hfvne : fv ≠ [] := by simpa [hfv] using hne
    rcases hmin : fv.min? with _ | m
    · rw [List.min?_eq_none_iff] at hmin
      exact absurd hmin hfvne
    have hmle : ∀ x ∈ fv, m ≤ x :=
      fun x hx => (List.le_min?_iff (fun a b c => le_min_iff) hmin).mp (le_refl m) x hx
    set shifted := fv.map (fun f => f - m + 1) with hsh
    have hshpos : ∀ s ∈ shifted, 0 < s := by
      intro s hs
      obtain ⟨f, hf, rfl⟩ := List.mem_map.mp hs
      have := hmle f hf
      linarith
    have hshne : shifted ≠ [] := by simpa [hsh] using hfvne
    have hsumpos : 0 < shifted.sum := List.sum_pos _ hshpos hshne
    set probs := shifted.map (fun s => s / shifted.sum) with hpr
    have hlenp : probs.length = ids.length := by simp [hpr, hsh, hfv]
    set w := (List.range ids.length).zip probs with hw
    have hwfst : w.map Prod.fst = List.range ids.length := by
      rw [hw]
      exact List.map_fst_zip _ _ (by simp [hlenp])
    have hwpos : ∀ x ∈ w, 0 < x.2 := by
      intro x hx
      obtain ⟨s, hs, heq⟩ := List.mem_map.mp ((List.of_mem_zip hx).2)
      rw [← heq]
      exact div_pos (hshpos s hs) hsumpos
    have hwlen : count ≤ w.length := by
      rw [hw, List.length_zip]
      simp only [List.length_range, hlenp]
      omega
    obtain ⟨hl, hn2, hmem⟩ := choiceNoRep_spec draws hdr count 0 w hwpos
      (by rw [hwfst]; exact List.nodup_range _) hwlen
    have hself : selection_function count draws heap ids =
        .ok ((choiceNoRep draws 0 count w).map (fun i => ids.getD i 0)) := by
      simp only [selection_function, ← hfv, hmin, ← hsh, ← hpr, ← hw]
      rw [if_neg (by omega)]
    refine ⟨_, hself, ?_, ?_, ?_⟩
    · rw [List.length_map, hl]
    · refine List.Nodup.map_on ?_ hn2
      intro a ha b hb hab
      have ha2 : a < ids.length := by
        have := hmem a ha
        rw [hwfst] at this
        exact List.mem_range.mp this
      have hb2 : b < ids.length := by
        have := hmem b hb
        rw [hwfst] at this
        exact List.mem_range.mp this
      rw [List.getD_eq_getElem _ _ ha2, List.getD_eq_getElem _ _ hb2] at hab
      exact (List.Nodup.getElem_inj_iff hnd).mp hab
    · intro c hc
      obtain ⟨a, ha, rfl⟩ := List.mem_map.mp hc
      have ha2 : a < ids.length := by
        have := hmem a ha
        rw [hwfst] at this
        exact List.mem_range.mp this
      rw [List.getD_eq_getElem _ _ ha2]
      exact List.getElem_mem ha2
  · intro hcount
    rcases hmin : (ids.map (fun i => (objAt heap i).fitness)).min? with _ | m
    · exact ⟨"zero-size array to reduction operation minimum which has no identity",
        by simp only [selection_function, hmin]⟩
    · exact ⟨"Cannot take a larger sample than population when replace is False",
        by simp only [selection_function, hmin]; rw [if_pos hcount]⟩
  · intro hnil
    subst hnil
    exact ⟨"zero-size array to reduction operation minimum which has no identity", rfl⟩

/-- Closed instance for the claim C6 theorem: two distinct chromosome
objects with fitness 1 and 2, one draw at 0, count 1. -/
theorem roulette_selection_spec_witness :
    ∃ l, selection_function 1 (fun _ => 0) [⟨[0], 1⟩, ⟨[1], 2⟩] [0, 1] = .ok l ∧
      l.length = 1 ∧ l.Nodup ∧ ∀ c ∈ l, c ∈ ([0, 1] : List ChromId) :=
  (roulette_selection_spec [⟨[0], 1⟩, ⟨[1], 2⟩] [0, 1] 1 (fun _ => 0)).1
    (by decide) (by decide) (by decide) (fun t => by norm_num)

end Janetic
